import Mathlib

/-!
Shallow embedding of the fetch-extract-parse pipeline of the
binance-data-parser repository (package `binancevisionconnector`,
file `binance-vision-connector/connector.go`).

Conventions of the embedding:
* Go strings are modelled as Lean `String`s over their character sequence
  (all strings relevant here are ASCII, so Go byte indexing and Lean
  character indexing agree).
* Go `int64` is modelled as `Int` together with the explicit range check
  `-2^63 ≤ v ≤ 2^63 - 1` where the standard library performs it.
* Float parsing is modelled at the success/failure level, exactly:
  the accepted tokens mirror strconv's atof.go — `special` (signed
  `inf`/`infinity`, unsigned `nan`, case-insensitive), the whole-string
  `readFloat` scan in decimal and hexadecimal base, the `underscoreOK`
  digit-separator rule, and the `ErrRange` overflow cut at the exact
  `float64` rounding boundary `2^1024 - 2^970` computed from the token's
  exact magnitude.  The rounded IEEE-754 value itself is never needed by
  any claim, so a successfully parsed float field is represented by its
  validated source token (a `String`), not by a floating-point number.
* The `encoding/csv` reader is modelled at the record level: the input of
  `parseCSVStreaming` is the list of already-lexed records (each a list of
  field strings).  The reader state that matters behaviourally is
  `FieldsPerRecord`: with the default value 0, the first record fixes the
  expected field count and every later record with a different count makes
  `Read` return a non-nil error together with the record.
* `DownloadTrades` processes CSV members in concurrent goroutines and
  merges their outputs under a mutex; the model fixes the archive member
  order as the schedule.  Every property proved below (counts, error
  aggregation, selection) is insensitive to the merge order.
-/

namespace BinanceVision

set_option maxRecDepth 16384

instance {ε α : Type} [DecidableEq ε] [DecidableEq α] :
    DecidableEq (Except ε α) := fun a b =>
  match a, b with
  | .error e, .error f =>
      if h : e = f then .isTrue (by rw [h])
      else .isFalse (by intro hh; injection hh; exact h (by assumption))
  | .error _, .ok _ => .isFalse (fun h => Except.noConfusion h)
  | .ok _, .error _ => .isFalse (fun h => Except.noConfusion h)
  | .ok x, .ok y =>
      if h : x = y then .isTrue (by rw [h])
      else .isFalse (by intro hh; injection hh; exact h (by assumption))

/-- Fold a list of decimal digit characters into the natural number they
denote. -/
def digitsToNat (cs : List Char) : Nat :=
  cs.foldl (fun a c => 10 * a + (c.toNat - '0'.toNat)) 0

/-- A nonempty, all-decimal-digit character list. -/
def decDigitsOk (cs : List Char) : Bool :=
  !cs.isEmpty && cs.all Char.isDigit

/-- Strip the optional single leading `+`/`-` sign, as both
`strconv.ParseInt` and `strconv.ParseFloat` do before scanning digits. -/
def stripSign (cs : List Char) : List Char :=
  if cs.headD ' ' == '+' || cs.headD ' ' == '-' then cs.tail else cs

/-- Model of Go `strconv.ParseInt(s, 10, 64)` as used at connector.go:288
and :312: an optional single `+`/`-` sign followed by a nonempty run of
decimal digits (base 10 is given explicitly, so no underscores and no base
prefixes); an out-of-range value yields `ErrRange`, i.e. a non-nil error,
modelled as `none`. -/
def parseInt64 (s : String) : Option Int :=
  if decDigitsOk (stripSign s.toList) then
    let v : Int :=
      if s.toList.headD ' ' == '-' then -(digitsToNat (stripSign s.toList) : Int)
      else (digitsToNat (stripSign s.toList) : Int)
    if -(2 ^ 63) ≤ v ∧ v ≤ 2 ^ 63 - 1 then some v else none
  else none

/-- Case-insensitive `inf` / `infinity`. -/
def isInfTok (cs : List Char) : Bool :=
  cs.map Char.toLower = "inf".toList || cs.map Char.toLower = "infinity".toList

/-- Case-insensitive `nan`. -/
def isNanTok (cs : List Char) : Bool :=
  cs.map Char.toLower = "nan".toList

/-- Model of strconv's `special` (atof.go) applied to the whole token:
`inf`/`infinity` may carry a leading sign; the sign branch of `special`
falls through only to the infinity match, so `nan` is special only when
unsigned — `-nan`/`+NaN` are not special and then fail the numeric
scan. -/
def floatSpecialOk : List Char → Bool
  | '+' :: t => isInfTok t
  | '-' :: t => isInfTok t
  | t => isInfTok t || isNanTok t

/-- Hexadecimal letter digit `a`-`f`, case-insensitive. -/
def isHexLetter (c : Char) : Bool :=
  'a' ≤ c.toLower && c.toLower ≤ 'f'

/-- A hexadecimal digit. -/
def isHexDigitCh (c : Char) : Bool :=
  c.isDigit || isHexLetter c

/-- The mantissa loop of strconv's `readFloat` in decimal base: consumes
digits, underscores and at most one decimal point (a second point breaks
the loop without being consumed), tracking whether a digit was seen, and
returns the unconsumed remainder. -/
def scanDecMantissa : Bool → Bool → List Char → Bool × List Char
  | _, sawdigits, [] => (sawdigits, [])
  | sawdot, sawdigits, c :: t =>
      if c == '_' then scanDecMantissa sawdot sawdigits t
      else if c == '.' then
        if sawdot then (sawdigits, '.' :: t)
        else scanDecMantissa true sawdigits t
      else if c.isDigit then scanDecMantissa sawdot true t
      else (sawdigits, c :: t)

/-- The mantissa loop of `readFloat` in hexadecimal base. -/
def scanHexMantissa : Bool → Bool → List Char → Bool × List Char
  | _, sawdigits, [] => (sawdigits, [])
  | sawdot, sawdigits, c :: t =>
      if c == '_' then scanHexMantissa sawdot sawdigits t
      else if c == '.' then
        if sawdot then (sawdigits, '.' :: t)
        else scanHexMantissa true sawdigits t
      else if isHexDigitCh c then scanHexMantissa sawdot true t
      else (sawdigits, c :: t)

/-- The exponent-digit loop of `readFloat`: consumes digits and
underscores. -/
def scanExpDigits : List Char → List Char
  | [] => []
  | c :: t => if c.isDigit || c == '_' then scanExpDigits t else c :: t

/-- After the exponent marker and optional sign, the first character must
be a digit; then digits and underscores must reach the end of the
token. -/
def expDigitsOk : List Char → Bool
  | [] => false
  | c :: t => c.isDigit && (scanExpDigits t).isEmpty

/-- The part after the exponent marker: optional sign, then digits. -/
def expTailOk : List Char → Bool
  | '+' :: t => expDigitsOk t
  | '-' :: t => expDigitsOk t
  | t => expDigitsOk t

/-- Whole-token decimal syntax after the optional sign: a mantissa with at
least one digit, then either the end of the token or a complete
`e`/`E` exponent. -/
def decFloatOk (cs : List Char) : Bool :=
  (scanDecMantissa false false cs).1 &&
    (match (scanDecMantissa false false cs).2 with
     | [] => true
     | e :: t => (e == 'e' || e == 'E') && expTailOk t)

/-- Whole-token hexadecimal syntax after the `0x` prefix: a hex mantissa
with at least one digit and a mandatory `p`/`P` exponent. -/
def hexFloatOk (cs : List Char) : Bool :=
  (scanHexMantissa false false cs).1 &&
    (match (scanHexMantissa false false cs).2 with
     | [] => false
     | p :: t => (p == 'p' || p == 'P') && expTailOk t)

/-- `readFloat`'s base selection on the sign-stripped token: a `0x`/`0X`
prefix followed by at least one further character selects the hexadecimal
grammar, everything else the decimal one. -/
def parseFloatNumberOk : List Char → Bool
  | '0' :: x :: t =>
      if (x == 'x' || x == 'X') && !t.isEmpty then hexFloatOk t
      else decFloatOk ('0' :: x :: t)
  | t => decFloatOk t

/-- The state loop of strconv's `underscoreOK`: `saw` is `^` at the
start, `0` after a digit or base prefix, `_` after an underscore and `!`
otherwise; an underscore must both follow and be followed by a digit. -/
def underscoreOKLoop : Bool → Char → List Char → Bool
  | _, saw, [] => saw != '_'
  | hex, saw, c :: t =>
      if c.isDigit || (hex && isHexLetter c) then underscoreOKLoop hex '0' t
      else if c == '_' then (saw == '0') && underscoreOKLoop hex '_' t
      else if saw == '_' then false
      else underscoreOKLoop hex '!' t

/-- Model of strconv's `underscoreOK` on the full token (the sign and an
optional `0b`/`0o`/`0x` prefix are stripped first).  Go runs this check
only when the scanner consumed an underscore; it is vacuously true for
underscore-free tokens, so the model applies it unconditionally. -/
def underscoreOK (cs : List Char) : Bool :=
  match stripSign cs with
  | '0' :: b :: t =>
      if b == 'b' || b == 'B' || b == 'o' || b == 'O' || b == 'x' || b == 'X'
      then underscoreOKLoop (b == 'x' || b == 'X') '0' t
      else underscoreOKLoop false '^' ('0' :: b :: t)
  | t => underscoreOKLoop false '^' t

/-- A character the decimal mantissa loop consumes. -/
def isDecMantChar (c : Char) : Bool := c.isDigit || c == '_' || c == '.'

/-- A character the hexadecimal mantissa loop consumes. -/
def isHexMantChar (c : Char) : Bool := isHexDigitCh c || c == '_' || c == '.'

/-- Decimal value of an exponent digit run (underscores skipped). -/
def expValAux (acc : Nat) : List Char → Nat
  | [] => acc
  | c :: t =>
      if c == '_' then expValAux acc t
      else expValAux (acc * 10 + (c.toNat - '0'.toNat)) t

/-- Signed value of the part after the exponent marker. -/
def expVal : List Char → Int
  | '+' :: t => (expValAux 0 t : Int)
  | '-' :: t => -(expValAux 0 t : Int)
  | t => (expValAux 0 t : Int)

/-- Value of one hexadecimal digit. -/
def hexDigitVal (c : Char) : Nat :=
  if c.isDigit then c.toNat - '0'.toNat else c.toLower.toNat - 'a'.toNat + 10

/-- Fold hexadecimal digits into the natural number they denote. -/
def hexDigitsToNat (cs : List Char) : Nat :=
  cs.foldl (fun a c => 16 * a + hexDigitVal c) 0

/-- Exact decomposition of a valid decimal token: the mantissa digits
(point and underscores removed) as a natural number, and the signed power
of ten (exponent value minus the number of fractional digits). -/
def decNumVal (cs : List Char) : Nat × Int :=
  (digitsToNat ((cs.takeWhile isDecMantChar).filter Char.isDigit),
    (match cs.dropWhile isDecMantChar with
     | [] => 0
     | _ :: t => expVal t) -
      (((cs.takeWhile isDecMantChar).dropWhile fun c => !(c == '.')).filter
        Char.isDigit).length)

/-- Exact decomposition of a valid hexadecimal token: mantissa as a
natural number and the signed power of two (each fractional hex digit
contributes four bits). -/
def hexNumVal (cs : List Char) : Nat × Int :=
  (hexDigitsToNat ((cs.takeWhile isHexMantChar).filter isHexDigitCh),
    (match cs.dropWhile isHexMantChar with
     | [] => 0
     | _ :: t => expVal t) -
      4 * (((cs.takeWhile isHexMantChar).dropWhile fun c => !(c == '.')).filter
        isHexDigitCh).length)

/-- The smallest magnitude that `float64` round-to-nearest-even sends to
infinity: the midpoint above the largest finite value (the tie rounds up
to 2^1024, whose significand is even). -/
def overflowBound : Nat := 2 ^ 1024 - 2 ^ 970

/-- Exact-magnitude check `mantissa * base ^ exponent < overflowBound`,
phrased over naturals on both sides of the sign of the exponent. -/
def fitsRange (base : Nat) (p : Nat × Int) : Bool :=
  if 0 ≤ p.2 then p.1 * base ^ p.2.toNat < overflowBound
  else p.1 < overflowBound * base ^ (-p.2).toNat

/-- strconv `ParseFloat` overflow semantics on the sign-stripped token: a
syntactically valid token whose exact magnitude reaches the overflow
bound converts to ±Inf with `ErrRange`, i.e. a non-nil error (the sign is
irrelevant to the magnitude; underflow to zero carries no error). -/
def parseFloatInRange : List Char → Bool
  | '0' :: x :: t =>
      if (x == 'x' || x == 'X') && !t.isEmpty then fitsRange 2 (hexNumVal t)
      else fitsRange 10 (decNumVal ('0' :: x :: t))
  | t => fitsRange 10 (decNumVal t)

/-- Model of Go `strconv.ParseFloat(s, 64)` success, as used at
connector.go:294-309 and by `isNumeric` at :346, mirroring strconv's
atof.go: either a special spelling (`special`), or a decimal or
hexadecimal number accepted by the whole-string `readFloat` scan with
underscores placed as `underscoreOK` demands and an exact magnitude below
the `float64` overflow bound. -/
def parseFloatOk (s : String) : Bool :=
  floatSpecialOk s.toList ||
    (parseFloatNumberOk (stripSign s.toList) && underscoreOK s.toList &&
      parseFloatInRange (stripSign s.toList))

/-- Model of `isNumeric` (connector.go:344-348): `strconv.ParseFloat`
succeeds. -/
def isNumeric (s : String) : Bool :=
  parseFloatOk s

/-- Float-field parsing: on success the value is represented by its source
token (see the module header). -/
def parseFloatTok (s : String) : Option String :=
  if parseFloatOk s then some s else none

/-- Model of `parseBool` (connector.go:333-342): the twelve literal
spellings it matches, everything else an error. -/
def parseBool (s : String) : Except String Bool :=
  if s = "true" then .ok true
  else if s = "True" then .ok true
  else if s = "TRUE" then .ok true
  else if s = "1" then .ok true
  else if s = "t" then .ok true
  else if s = "T" then .ok true
  else if s = "false" then .ok false
  else if s = "False" then .ok false
  else if s = "FALSE" then .ok false
  else if s = "0" then .ok false
  else if s = "f" then .ok false
  else if s = "F" then .ok false
  else .error ("invalid boolean value: " ++ s)

/-- Model of the `Trade` struct (connector.go:18-26).  `price`,
`quantity` and `quoteQuantity` carry the validated float tokens. -/
structure Trade where
  tradeID : Int
  price : String
  quantity : String
  quoteQuantity : String
  timestamp : Int
  isBuyerMaker : Bool
  isBestMatch : Bool
deriving DecidableEq, Repr

/-- Model of `parseTradeRecord` (connector.go:283-330): positional
conversion of the seven fields, first failure aborting the record.  All
call sites guard `len(record) ≥ 7`, so the total default indexing
`getD i ""` is never exercised on short records. -/
def parseTradeRecord (record : List String) : Except String Trade :=
  match parseInt64 (record.getD 0 "") with
  | none => .error "invalid TradeId"
  | some tid =>
    match parseFloatTok (record.getD 1 "") with
    | none => .error "invalid Price"
    | some pr =>
      match parseFloatTok (record.getD 2 "") with
      | none => .error "invalid Quantity"
      | some qty =>
        match parseFloatTok (record.getD 3 "") with
        | none => .error "invalid QuoteQuantity"
        | some qq =>
          match parseInt64 (record.getD 4 "") with
          | none => .error "invalid Timestamp"
          | some ts =>
            match parseBool (record.getD 5 "") with
            | .error _ => .error "invalid IsBuyerMaker"
            | .ok bm =>
              match parseBool (record.getD 6 "") with
              | .error _ => .error "invalid IsBestMatch"
              | .ok best =>
                .ok ⟨tid, pr, qty, qq, ts, bm, best⟩

/-- The `encoding/csv` `FieldsPerRecord` check: with the default state
(`none`, Go value 0) the first record fixes the count; afterwards a record
of a different length makes `Read` return a non-nil error. -/
def fieldCountOk (fpr : Option Nat) (record : List String) : Bool :=
  match fpr with
  | none => true
  | some n => record.length == n

/-- The header heuristic of `parseCSVStreaming` (connector.go:248): first
field textually a known header name, or not numeric. -/
def isHeaderRow (record : List String) : Bool :=
  decide (0 < record.length) &&
    (record.getD 0 "" == "TradeId" || record.getD 0 "" == "trade_id" ||
      !isNumeric (record.getD 0 ""))

/-- Error text for a failed `csvReader.Read` (connector.go:241). -/
def csvReadErr (line : Nat) : String :=
  "failed to read CSV record at line " ++ toString line ++
    ": wrong number of fields"

/-- The record loop of `parseCSVStreaming` (connector.go:235-271).
Per record, in source order: the csv reader field-count check (a non-nil
`Read` error is fatal), the header-skip branch, the `maxTrades` break, the
`len(record) < 7` skip, then `parseTradeRecord` with per-row errors
skipped. -/
def parseLoop (maxTrades : Nat) (rows : List (List String)) (fpr : Option Nat)
    (headerSkipped : Bool) (lineNum : Nat) (acc : List Trade) :
    Except String (List Trade) :=
  match rows with
  | [] => .ok acc
  | record :: rest =>
    if fieldCountOk fpr record then
      if !headerSkipped && isHeaderRow record then
        parseLoop maxTrades rest (some record.length) true (lineNum + 1) acc
      else if 0 < maxTrades ∧ maxTrades ≤ acc.length then
        .ok acc
      else if record.length < 7 then
        parseLoop maxTrades rest (some record.length) true (lineNum + 1) acc
      else
        match parseTradeRecord record with
        | .error _ =>
            parseLoop maxTrades rest (some record.length) true (lineNum + 1) acc
        | .ok t =>
            parseLoop maxTrades rest (some record.length) true (lineNum + 1)
              (acc ++ [t])
    else .error (csvReadErr (lineNum + 1))

/-- Model of `parseCSVStreaming` (connector.go:217-274) on the lexed
records of one CSV member. -/
def parseCSVStreaming (rows : List (List String)) (maxTrades : Nat) :
    Except String (List Trade) :=
  parseLoop maxTrades rows none false 0 []

/-- The standard header row of a Binance Vision trades CSV. -/
def stdHeader : List String :=
  ["TradeId", "Price", "Quantity", "QuoteQuantity", "Timestamp",
   "IsBuyerMaker", "IsBestMatch"]

/-- Spec-side variant for the refinement claim C9: the record loop of
`parseCSVStreaming` with the header-skip branch removed, so that every row
is subject only to the field-count check, the `maxTrades` break, the short
row skip and the per-row conversion filter. -/
def parseLoopNoHeader (maxTrades : Nat) (rows : List (List String))
    (fpr : Option Nat) (lineNum : Nat) (acc : List Trade) :
    Except String (List Trade) :=
  match rows with
  | [] => .ok acc
  | record :: rest =>
    if fieldCountOk fpr record then
      if 0 < maxTrades ∧ maxTrades ≤ acc.length then
        .ok acc
      else if record.length < 7 then
        parseLoopNoHeader maxTrades rest (some record.length) (lineNum + 1) acc
      else
        match parseTradeRecord record with
        | .error _ =>
            parseLoopNoHeader maxTrades rest (some record.length) (lineNum + 1)
              acc
        | .ok t =>
            parseLoopNoHeader maxTrades rest (some record.length) (lineNum + 1)
              (acc ++ [t])
    else .error (csvReadErr (lineNum + 1))

/-- Spec-side variant for the refinement claim C9: `parseCSVStreaming`
without the header-skip heuristic. -/
def parseCSVNoHeaderSkip (rows : List (List String)) (maxTrades : Nat) :
    Except String (List Trade) :=
  parseLoopNoHeader maxTrades rows none 0 []

/-- A member of the fetched zip archive, as exposed by `zip.Reader`:
its name, whether it is a directory, whether `Open` fails (and with which
message), and the lexed CSV records of its content stream. -/
structure ZipEntry where
  name : String
  isDir : Bool
  openErr : Option String
  rows : List (List String)
deriving DecidableEq, Repr

/-- The member-selection test of `DownloadTrades` (connector.go:158-160):
not a directory, and `len(fileName) > 4 && fileName[len(fileName)-4:] ==
".csv"`. -/
def selectCSV (e : ZipEntry) : Bool :=
  !e.isDir && decide (4 < e.name.length) &&
    e.name.toList.drop (e.name.length - 4) == ".csv".toList

/-- Spec-side selection predicate, from the words of claim C3 and spec
section 4.2: a non-directory member whose name ends in the CSV extension
".csv". -/
def specSelectsCSV (e : ZipEntry) : Bool :=
  !e.isDir && ".csv".toList.isSuffixOf e.name.toList

/-- One member-parsing task of `DownloadTrades` (connector.go:165-188):
open the member (failure is reported into the error channel), then run the
streaming CSV parse with the literal unlimited bound 0 (connector.go:177);
a parse error is reported into the error channel, otherwise the task
yields its record slice. -/
def memberTask (e : ZipEntry) : Except String (List Trade) :=
  match e.openErr with
  | some msg => .error ("failed to open file " ++ e.name ++ ": " ++ msg)
  | none =>
    match parseCSVStreaming e.rows 0 with
    | .error msg => .error ("failed to parse CSV " ++ e.name ++ ": " ++ msg)
    | .ok ts => .ok ts

/-- The error of a finished member task, if any. -/
def taskErr : Except String (List Trade) → Option String
  | .error m => some m
  | .ok _ => none

/-- The record slice of a finished member task (empty for a failed task;
on the error path `DownloadTrades` discards the partial result anyway). -/
def taskTrades : Except String (List Trade) → List Trade
  | .error _ => []
  | .ok ts => ts

/-- Model of the `DownloadResult` struct (connector.go:29-34). -/
structure DownloadResult where
  symbol : String
  date : String
  tradeCount : Nat
  trades : List Trade
deriving DecidableEq, Repr

/-- The terminal errors of `DownloadTrades` that the pure model can reach
(request-construction and transport failures are part of the abstracted
HTTP exchange). -/
inductive DLError where
  | badStatus (code : Nat)
  | emptyFile
  | zipOpenFailed (msg : String)
  | noCSVFound
  | csvErrors (msgs : List String)
deriving DecidableEq, Repr

/-- The task errors `DownloadTrades` collects over the selected members
of an archive (connector.go:202-207), in member order. -/
def memberErrs (entries : List ZipEntry) : List String :=
  ((entries.filter selectCSV).map memberTask).filterMap taskErr

/-- The merged record list of all member-parsing tasks
(connector.go:183-187), in member order. -/
def memberTrades (entries : List ZipEntry) : List Trade :=
  (((entries.filter selectCSV).map memberTask).map taskTrades).flatten

/-- The archive-processing phase of `DownloadTrades` (connector.go:143-213):
select the CSV members, fail with "no CSV files found" when there are
none, run one parsing task per selected member, collect every task error,
fail with the aggregate when any exist, and otherwise return the result
whose `trades` is the concatenation of the task outputs and whose
`tradeCount` is its length (connector.go:184-187).  The concurrent merge
is modelled in archive member order; every property proved below is
insensitive to that order. -/
def processEntries (entries : List ZipEntry) (symbol date : String) :
    Except DLError DownloadResult :=
  if (entries.filter selectCSV).isEmpty then .error .noCSVFound
  else if (memberErrs entries).isEmpty then
    .ok ⟨symbol, date, (memberTrades entries).length, memberTrades entries⟩
  else .error (.csvErrors (memberErrs entries))

/-- Model of `formatDate` (connector.go:351-360): zero-pad month and day
exactly when they are single characters; the year passes through. -/
def formatDate (year month day : String) : String × String × String :=
  (year,
   if month.length = 1 then "0" ++ month else month,
   if day.length = 1 then "0" ++ day else day)

/-- The archive URL built by `DownloadTrades` (connector.go:103-104) from
the already-formatted date components. -/
def tradesURL (symbol year month day : String) : String :=
  "https://data.binance.vision/data/spot/daily/trades/" ++ symbol ++ "/" ++
    symbol ++ "-trades-" ++ year ++ "-" ++ month ++ "-" ++ day ++ ".zip"

/-- The URL `DownloadTrades` requests: `formatDate` first
(connector.go:100), then the URL pattern. -/
def requestURL (symbol year month day : String) : String :=
  let fd := formatDate year month day
  tradesURL symbol fd.1 fd.2.1 fd.2.2

/-- The `Date` field of the returned result (connector.go:145), built from
the same `formatDate` output as the URL. -/
def resultDate (year month day : String) : String :=
  let fd := formatDate year month day
  fd.1 ++ "-" ++ fd.2.1 ++ "-" ++ fd.2.2

/-- The hard-coded response-body bound of connector.go:128:
`io.LimitReader(resp.Body, 500*1024*1024)`. -/
def maxResponseBytes : Nat := 500 * 1024 * 1024

/-- Pure model of `Connector.DownloadTrades` (connector.go:98-214).  The
HTTP exchange is abstracted as the response the server produced for the
request: a status code and a body byte sequence.  `zip.NewReader`
(connector.go:138) is abstracted as the `decodeZip` argument mapping the
in-memory bytes to the archive member index (or a format error).  In
source order: format the date, check the status, read the body through
`io.LimitReader` with the hard bound — `io.ReadAll` of a `LimitReader`
returns the truncated prefix with a nil error, so truncation is silent —
check emptiness, open the archive, and process the members. -/
def downloadTradesPure (decodeZip : List UInt8 → Except String (List ZipEntry))
    (status : Nat) (body : List UInt8) (symbol year month day : String) :
    Except DLError DownloadResult :=
  if status ≠ 200 then .error (.badStatus status)
  else if (body.take maxResponseBytes).length = 0 then .error .emptyFile
  else
    match decodeZip (body.take maxResponseBytes) with
    | .error e => .error (.zipOpenFailed e)
    | .ok entries => processEntries entries symbol (resultDate year month day)

/-- Model of the `ConnectorConfig` struct (connector.go:44-51).  Durations
and counts are modelled as integers. -/
structure ConnectorConfig where
  timeout : Int
  maxIdleConns : Int
  maxConnsPerHost : Int
  idleConnTimeout : Int
  maxResponseSize : Int
  maxTradesPerFile : Int
deriving DecidableEq, Repr

/-- `DownloadTrades` as invoked on a connector built by
`NewConnectorWithConfig` (connector.go:76-95).  Of the configuration,
`Timeout`, `MaxIdleConns`, `MaxConnsPerHost` and `IdleConnTimeout` shape
only the HTTP transport, which the pure model abstracts as the given
response; `MaxResponseSize` and `MaxTradesPerFile` are read nowhere in the
source — the body bound is the literal `500*1024*1024`
(connector.go:128) and the per-file parse is invoked with the literal
unlimited bound 0 (connector.go:177). -/
def downloadTradesWithConfig (cfg : ConnectorConfig)
    (decodeZip : List UInt8 → Except String (List ZipEntry))
    (status : Nat) (body : List UInt8) (symbol year month day : String) :
    Except DLError DownloadResult :=
  downloadTradesPure decodeZip status body symbol year month day

/-- The zero-padded two-digit decimal form of a month or day value, from
the words of the spec (section 8): the normalized output is zero-padded
`YYYY-MM-DD`. -/
def pad2 (n : Nat) : String :=
  if n < 10 then "0" ++ toString n else toString n

/-- The symbol format validated upstream (spec section 6): nonempty,
uppercase alphanumeric. -/
def symbolValid (s : String) : Bool :=
  !s.isEmpty && s.toList.all fun c => c.isUpper || c.isDigit

/-- Modelled from the spec: the upstream handler requires that
(year, month, day) form a real calendar date (spec sections 6 and 8); the
check itself is delegated to the Go standard library's date parser, which
is not part of this repository, so the standard Gregorian
days-in-month rule is used. -/
def daysInMonth (y m : Nat) : Nat :=
  if m = 2 then
    if y % 4 = 0 ∧ (y % 100 ≠ 0 ∨ y % 400 = 0) then 29 else 28
  else if m = 4 ∨ m = 6 ∨ m = 9 ∨ m = 11 then 30
  else 31

/-- A well-formed trade row whose first field is numeric (so it is not
taken for a header). -/
def tradeRow : List String := ["1", "1.5", "2", "3", "1000", "1", "0"]

/-- The trade `tradeRow` denotes. -/
def tradeRowTrade : Trade := ⟨1, "1.5", "2", "3", 1000, true, false⟩

/-- Concrete archive members contributing 2, 3 and 5 parsed rows. -/
def c7Entries : List ZipEntry :=
  [⟨"a.csv", false, none, List.replicate 2 tradeRow⟩,
   ⟨"b.csv", false, none, List.replicate 3 tradeRow⟩,
   ⟨"c.csv", false, none, List.replicate 5 tradeRow⟩]

/-- The result for `c7Entries`. -/
def c7Result : DownloadResult :=
  ⟨"BTCUSDT", "2024-01-02", 10, List.replicate 10 tradeRowTrade⟩

/-- Concrete archive with two fatally failing members: one whose `Open`
fails, one whose CSV stream returns a read error (field-count mismatch
after a 7-field header). -/
def c8Entries : List ZipEntry :=
  [⟨"a.csv", false, some "boom", []⟩,
   ⟨"b.csv", false, none, [stdHeader, ["1", "2"]]⟩]

/-- An over-limit response body: one byte more than the hard bound. -/
def oversizeBody : List UInt8 := List.replicate (maxResponseBytes + 1) 0

/-- A one-member archive index, standing for a response whose first
500 MiB form a complete valid zip archive (the decoder only ever sees the
truncated prefix). -/
def c2Entry : ZipEntry :=
  ⟨"BTCUSDT-trades-2024-01-02.csv", false, none,
   [stdHeader, ["1", "1.5", "2", "3", "1000", "true", "false"]]⟩


/-- C1: the claim is the intent documented by the source itself
("Skip incomplete records", connector.go:261), but the default
`encoding/csv` field-count enforcement defeats it: after a 7-field header
fixes `FieldsPerRecord`, a 2-field row makes `csvReader.Read` return a
non-nil error, which `parseCSVStreaming` treats as fatal
(connector.go:240-242) — the remaining well-formed row is lost.  A row
whose fields fail to convert (here: a bad boolean) is, by contrast,
skipped without failing the parse. -/
theorem c1_incomplete_row_aborts_parse :
    parseCSVStreaming
        [stdHeader, ["1", "2"],
         ["1", "1.5", "2", "3", "1000", "true", "false"]] 0 =
      .error (csvReadErr 2) ∧
    (parseTradeRecord ["1", "1.5", "2", "3", "1000", "true", "false"]).isOk =
      true ∧
    parseCSVStreaming
        [stdHeader, ["1", "1.5", "2", "3", "1000", "notabool", "false"],
         ["1", "1.5", "2", "3", "1000", "true", "false"]] 0 =
      .ok [⟨1, "1.5", "2", "3", 1000, true, false⟩] := by decide

/-- C2 counterexample: a body one byte over the 500 MiB bound does not
produce a size-exceeded error; `DownloadTrades` silently truncates it and
returns a result built from the truncated body (here the decoder stands
for a response whose first 500 MiB form a complete valid archive). -/
theorem c2_oversize_body_succeeds :
    oversizeBody.length = maxResponseBytes + 1 ∧
    downloadTradesPure (fun _ => .ok [c2Entry]) 200 oversizeBody
        "BTCUSDT" "2024" "1" "2" =
      .ok ⟨"BTCUSDT", "2024-01-02", 1, [⟨1, "1.5", "2", "3", 1000, true, false⟩]⟩ := by
  constructor
  · simp [oversizeBody]
  · have h1 : oversizeBody.take maxResponseBytes =
        List.replicate maxResponseBytes 0 := by
      rw [oversizeBody, List.take_replicate, Nat.min_eq_left (Nat.le_succ _)]
    unfold downloadTradesPure
    rw [if_neg (by norm_num), h1, List.length_replicate,
      if_neg (by norm_num [maxResponseBytes])]
    show processEntries [c2Entry] "BTCUSDT" (resultDate "2024" "1" "2") = _
    decide

/-- C2 amended: the 500 MiB bound only truncates — the outcome of
`DownloadTrades` depends solely on the first 500 MiB of the body, no
size-exceeded error exists, and at most 500 MiB are retained. -/
theorem c2_result_depends_only_on_truncated_body
    (decodeZip : List UInt8 → Except String (List ZipEntry)) (status : Nat)
    (body : List UInt8) (symbol year month day : String) :
    downloadTradesPure decodeZip status body symbol year month day =
      downloadTradesPure decodeZip status (body.take maxResponseBytes)
        symbol year month day ∧
    (body.take maxResponseBytes).length ≤ maxResponseBytes := by
  constructor
  · simp only [downloadTradesPure, List.take_take, Nat.min_self]
  · simpa using List.length_take_le maxResponseBytes body

/-- C3 counterexample: a non-directory member named exactly ".csv" ends in
the CSV extension, yet the selection test `len(name) > 4` rejects it and
the parse fails with "no CSV files found". -/
theorem c3_dot_csv_member_not_selected :
    specSelectsCSV ⟨".csv", false, none, [stdHeader]⟩ = true ∧
    selectCSV ⟨".csv", false, none, [stdHeader]⟩ = false ∧
    processEntries [⟨".csv", false, none, [stdHeader]⟩] "BTCUSDT" "2024-01-02" =
      .error .noCSVFound := by decide

/-- C3 amended: a member is selected exactly when it is not a directory
and its name is longer than 4 characters with ".csv" as the last four;
the "no CSV files found" error occurs if and only if no member passes that
test. -/
theorem c3_selection_requires_stem (entries : List ZipEntry)
    (symbol date : String) :
    (∀ e : ZipEntry, selectCSV e = true ↔
        e.isDir = false ∧ 4 < e.name.length ∧
          e.name.toList.drop (e.name.length - 4) = ".csv".toList) ∧
    (processEntries entries symbol date = .error .noCSVFound ↔
      ∀ e ∈ entries, selectCSV e = false) := by
  constructor
  · intro e
    unfold selectCSV
    simp [Bool.and_eq_true, and_assoc]
  · have hiff : entries.filter selectCSV = [] ↔ ∀ e ∈ entries, selectCSV e = false := by
      constructor
      · intro hnil e he
        by_contra hsel
        have hmem : e ∈ entries.filter selectCSV :=
          List.mem_filter.mpr ⟨he, by simpa using hsel⟩
        rw [hnil] at hmem
        cases hmem
      · intro hall
        refine List.eq_nil_iff_forall_not_mem.mpr fun e hmem => ?_
        have he := List.mem_filter.mp hmem
        rw [hall e he.1] at he
        exact absurd he.2 (by simp)
    unfold processEntries
    by_cases hemp : (entries.filter selectCSV).isEmpty
    · rw [if_pos hemp]
      constructor
      · intro _
        exact hiff.mp (by simpa [List.isEmpty_iff] using hemp)
      · intro _
        rfl
    · rw [if_neg hemp]
      constructor
      · intro hcontra
        split at hcontra
        · cases hcontra
        · exact absurd hcontra (by simp)
      · intro hall
        exact absurd (hiff.mpr hall) (by simpa [List.isEmpty_iff] using hemp)

/-- C4 counterexample: "tRue" is a case-insensitive spelling of "true"
yet `parseBool` rejects it. -/
theorem c4_mixed_case_true_rejected :
    "tRue".toList.map Char.toLower = "true".toList ∧
    parseBool "tRue" = .error "invalid boolean value: tRue" := by decide

/-- C4 amended: boolean field parsing accepts exactly the twelve literal
spellings true/True/TRUE/1/t/T (mapped to true) and
false/False/FALSE/0/f/F (mapped to false); every other token — including
other case variants such as "tRue" — is an error, hence a row-level parse
failure. -/
theorem c4_parseBool_exact_spellings (s : String) :
    (parseBool s = .ok true ↔
      s = "true" ∨ s = "True" ∨ s = "TRUE" ∨ s = "1" ∨ s = "t" ∨ s = "T") ∧
    (parseBool s = .ok false ↔
      s = "false" ∨ s = "False" ∨ s = "FALSE" ∨ s = "0" ∨ s = "f" ∨ s = "F") := by
  by_cases e1 : s = "true"
  · subst e1; decide
  by_cases e2 : s = "True"
  · subst e2; decide
  by_cases e3 : s = "TRUE"
  · subst e3; decide
  by_cases e4 : s = "1"
  · subst e4; decide
  by_cases e5 : s = "t"
  · subst e5; decide
  by_cases e6 : s = "T"
  · subst e6; decide
  by_cases e7 : s = "false"
  · subst e7; decide
  by_cases e8 : s = "False"
  · subst e8; decide
  by_cases e9 : s = "FALSE"
  · subst e9; decide
  by_cases e10 : s = "0"
  · subst e10; decide
  by_cases e11 : s = "f"
  · subst e11; decide
  by_cases e12 : s = "F"
  · subst e12; decide
  have hp : parseBool s = .error ("invalid boolean value: " ++ s) := by
    unfold parseBool
    rw [if_neg e1, if_neg e2, if_neg e3, if_neg e4, if_neg e5, if_neg e6,
      if_neg e7, if_neg e8, if_neg e9, if_neg e10, if_neg e11, if_neg e12]
  rw [hp]
  refine ⟨⟨fun h => Except.noConfusion h, fun h => ?_⟩,
          ⟨fun h => Except.noConfusion h, fun h => ?_⟩⟩
  · rcases h with h | h | h | h | h | h
    exacts [absurd h e1, absurd h e2, absurd h e3, absurd h e4, absurd h e5,
      absurd h e6]
  · rcases h with h | h | h | h | h | h
    exacts [absurd h e7, absurd h e8, absurd h e9, absurd h e10, absurd h e11,
      absurd h e12]

theorem except_toOption_isSome {ε α : Type} (x : Except ε α) :
    x.toOption.isSome = x.isOk := by
  cases x <;> rfl

/-- After the first record, `parseLoop` runs with `headerSkipped = true`
and, with unlimited `maxTrades` and the field count fixed at 7, turns a
list of 7-field records into the filtered map of `parseTradeRecord`. -/
theorem parseLoop_post_header (rows : List (List String)) :
    ∀ (acc : List Trade) (ln : Nat), (∀ r ∈ rows, r.length = 7) →
      parseLoop 0 rows (some 7) true ln acc =
        .ok (acc ++ rows.filterMap fun r => (parseTradeRecord r).toOption) := by
  induction rows with
  | nil => intro acc ln _; simp [parseLoop]
  | cons r rest ih =>
    intro acc ln h
    have hr : r.length = 7 := h r (by simp)
    have hrest : ∀ x ∈ rest, x.length = 7 := fun x hx => h x (by simp [hx])
    unfold parseLoop
    rw [if_pos (show fieldCountOk (some 7) r = true by simp [fieldCountOk, hr]),
      if_neg (show ¬(!true && isHeaderRow r) = true by simp),
      if_neg (show ¬(0 < 0 ∧ 0 ≤ acc.length) by simp),
      if_neg (show ¬r.length < 7 by omega)]
    cases hpr : parseTradeRecord r with
    | error e =>
      show parseLoop 0 rest (some r.length) true (ln + 1) acc = _
      simp only [List.filterMap_cons, hpr, Except.toOption]
      rw [hr]
      exact ih acc (ln + 1) hrest
    | ok t =>
      show parseLoop 0 rest (some r.length) true (ln + 1) (acc ++ [t]) = _
      simp only [List.filterMap_cons, hpr, Except.toOption]
      rw [hr, ih (acc ++ [t]) (ln + 1) hrest]
      simp
      rfl

/-- A function that succeeds on every element of a list relates the list
and its `filterMap` pointwise. -/
theorem filterMap_forall_two {α β : Type} (g : α → Option β) :
    ∀ l : List α, (∀ a ∈ l, (g a).isSome = true) →
      List.Forall₂ (fun a b => g a = some b) l (l.filterMap g)
  | [], _ => by simp
  | a :: l, h => by
      obtain ⟨b, hb⟩ := Option.isSome_iff_exists.mp (h a (by simp))
      simp only [List.filterMap_cons, hb]
      exact List.Forall₂.cons hb
        (filterMap_forall_two g l fun x hx => h x (by simp [hx]))

/-- C5: a member consisting of the standard header followed by N
well-formed 7-field rows parses to exactly N records, the i-th record
being the successful `parseTradeRecord` image of the i-th row; and a
successful `parseTradeRecord` routes the seven fields positionally into
id, price, quantity, quoteQuantity, timestamp, isBuyerMaker,
isBestMatch. -/
theorem c5_wellformed_rows_parse_losslessly (dataRows : List (List String))
    (h7 : ∀ r ∈ dataRows, r.length = 7)
    (hok : ∀ r ∈ dataRows, (parseTradeRecord r).isOk = true) :
    ∃ ts : List Trade,
      parseCSVStreaming (stdHeader :: dataRows) 0 = .ok ts ∧
      ts.length = dataRows.length ∧
      List.Forall₂ (fun r t => parseTradeRecord r = .ok t) dataRows ts ∧
      ∀ r t, parseTradeRecord r = .ok t →
        parseInt64 (r.getD 0 "") = some t.tradeID ∧
        parseFloatTok (r.getD 1 "") = some t.price ∧
        parseFloatTok (r.getD 2 "") = some t.quantity ∧
        parseFloatTok (r.getD 3 "") = some t.quoteQuantity ∧
        parseInt64 (r.getD 4 "") = some t.timestamp ∧
        parseBool (r.getD 5 "") = .ok t.isBuyerMaker ∧
        parseBool (r.getD 6 "") = .ok t.isBestMatch := by
  have hsome : ∀ r ∈ dataRows, ((parseTradeRecord r).toOption).isSome = true :=
    fun r hr => by rw [except_toOption_isSome]; exact hok r hr
  have hforall := filterMap_forall_two _ dataRows hsome
  have hall : List.Forall₂ (fun r t => parseTradeRecord r = .ok t) dataRows
      (dataRows.filterMap fun r => (parseTradeRecord r).toOption) := by
    refine hforall.imp fun {r t} hrt => ?_
    cases hpr : parseTradeRecord r with
    | error e => rw [hpr] at hrt; cases hrt
    | ok u => rw [hpr] at hrt; injection hrt with h'; rw [h']
  refine ⟨dataRows.filterMap fun r => (parseTradeRecord r).toOption,
    ?_, ?_, hall, ?_⟩
  · unfold parseCSVStreaming
    unfold parseLoop
    rw [if_pos (show fieldCountOk none stdHeader = true from rfl),
      if_pos (show (!false && isHeaderRow stdHeader) = true from by decide)]
    simpa using parseLoop_post_header dataRows [] 1 h7
  · exact hall.length_eq.symm
  · intro r t hpt
    unfold parseTradeRecord at hpt
    split at hpt
    · cases hpt
    · rename_i tid h0
      split at hpt
      · cases hpt
      · rename_i pr h1
        split at hpt
        · cases hpt
        · rename_i qty h2
          split at hpt
          · cases hpt
          · rename_i qq h3
            split at hpt
            · cases hpt
            · rename_i tstamp h4
              split at hpt
              · cases hpt
              · rename_i bm h5
                split at hpt
                · cases hpt
                · rename_i best h6
                  injection hpt with h'
                  subst h'
                  exact ⟨h0, h1, h2, h3, h4, h5, h6⟩

/-- C5 witness: the standard header followed by one well-formed row
yields exactly that row's record. -/
theorem c5_witness :
    ∃ ts : List Trade,
      parseCSVStreaming (stdHeader :: [tradeRow]) 0 = .ok ts ∧
      ts.length = [tradeRow].length ∧
      List.Forall₂ (fun r t => parseTradeRecord r = .ok t) [tradeRow] ts ∧
      ∀ r t, parseTradeRecord r = .ok t →
        parseInt64 (r.getD 0 "") = some t.tradeID ∧
        parseFloatTok (r.getD 1 "") = some t.price ∧
        parseFloatTok (r.getD 2 "") = some t.quantity ∧
        parseFloatTok (r.getD 3 "") = some t.quoteQuantity ∧
        parseInt64 (r.getD 4 "") = some t.timestamp ∧
        parseBool (r.getD 5 "") = .ok t.isBuyerMaker ∧
        parseBool (r.getD 6 "") = .ok t.isBestMatch :=
  c5_wellformed_rows_parse_losslessly [tradeRow] (by decide) (by decide)

/-- C7: every successfully returned result has its trade count equal to
the length of its trade list. -/
theorem c7_trade_count_eq_length
    (decodeZip : List UInt8 → Except String (List ZipEntry)) (status : Nat)
    (body : List UInt8) (symbol year month day : String) (r : DownloadResult)
    (h : downloadTradesPure decodeZip status body symbol year month day = .ok r) :
    r.tradeCount = r.trades.length := by
  unfold downloadTradesPure at h
  split at h
  · cases h
  · split at h
    · cases h
    · split at h
      · cases h
      · rename_i entries heq
        unfold processEntries at h
        split at h
        · cases h
        · split at h
          · injection h with h'
            subst h'
            rfl
          · cases h

/-- C7 witness: an archive whose three CSV members contribute 2, 3 and 5
rows yields exactly 10 records with the count field equal to 10. -/
theorem c7_witness :
    downloadTradesPure (fun _ => .ok c7Entries) 200 [0] "BTCUSDT" "2024" "1" "2" =
      .ok c7Result ∧
    c7Result.tradeCount = c7Result.trades.length ∧
    c7Result.trades.length = 10 :=
  ⟨by decide,
   c7_trade_count_eq_length (fun _ => .ok c7Entries) 200 [0]
     "BTCUSDT" "2024" "1" "2" c7Result (by decide),
   by decide⟩

/-- C8: whenever at least one member-parsing task fails fatally (member
cannot be opened, or its CSV stream returns a fatal read error),
`DownloadTrades` fails with the aggregate of the task errors of all
failing selected members — every failing member error appears in the
reported list. -/
theorem c8_member_errors_aggregated
    (decodeZip : List UInt8 → Except String (List ZipEntry)) (body : List UInt8)
    (symbol year month day : String) (entries : List ZipEntry)
    (hbody : (body.take maxResponseBytes).length ≠ 0)
    (hdec : decodeZip (body.take maxResponseBytes) = .ok entries)
    (h : memberErrs entries ≠ []) :
    downloadTradesPure decodeZip 200 body symbol year month day =
      .error (.csvErrors (memberErrs entries)) ∧
    ∀ e ∈ entries.filter selectCSV, ∀ m, taskErr (memberTask e) = some m →
      m ∈ memberErrs entries := by
  have hsel : ¬(entries.filter selectCSV).isEmpty := by
    intro hemp
    have hnil : entries.filter selectCSV = [] := by
      simpa [List.isEmpty_iff] using hemp
    exact h (by simp [memberErrs, hnil])
  constructor
  · unfold downloadTradesPure
    rw [if_neg (by norm_num), if_neg hbody, hdec]
    show processEntries entries symbol (resultDate year month day) = _
    unfold processEntries
    rw [if_neg hsel, if_neg (by simpa [List.isEmpty_iff] using h)]
  · intro e he m hm
    exact List.mem_filterMap.mpr ⟨memberTask e, List.mem_map_of_mem _ he, hm⟩

/-- C8 witness: an archive with two fatally failing members (one that
cannot be opened, one whose CSV stream errors) reports both errors
together. -/
theorem c8_witness :
    downloadTradesPure (fun _ => .ok c8Entries) 200 [0] "BTCUSDT" "2024" "1" "2" =
      .error (.csvErrors
        ["failed to open file a.csv: boom",
         "failed to parse CSV b.csv: " ++ csvReadErr 2]) := by
  have h := (c8_member_errors_aggregated (fun _ => .ok c8Entries) [0]
    "BTCUSDT" "2024" "1" "2" c8Entries (by decide) (by decide) (by decide)).1
  rw [h]
  decide

theorem digit_beq_false {c : Char} (d : Char) (h : c.isDigit = true)
    (hd : d.isDigit = false) : (c == d) = false := by
  by_cases he : c = d
  · subst he; rw [h] at hd; exact Bool.noConfusion hd
  · simp [he]

theorem decDigitsOk_unpack {cs : List Char} (h : decDigitsOk cs = true) :
    cs.isEmpty = false ∧ cs.all Char.isDigit = true := by
  unfold decDigitsOk at h
  rw [Bool.and_eq_true] at h
  exact ⟨by simpa using h.1, h.2⟩

/-- The decimal mantissa scan consumes a digit run entirely. -/
theorem scanDecMantissa_digits :
    ∀ (t : List Char), t.all Char.isDigit = true →
      ∀ sawdot : Bool, scanDecMantissa sawdot true t = (true, [])
  | [], _, _ => rfl
  | c :: t, h, sawdot => by
      rw [List.all_cons, Bool.and_eq_true] at h
      unfold scanDecMantissa
      rw [if_neg (by simp [digit_beq_false '_' h.1 (by decide)]),
        if_neg (by simp [digit_beq_false '.' h.1 (by decide)]),
        if_pos h.1]
      exact scanDecMantissa_digits t h.2 sawdot

theorem scanDecMantissa_digits_nonempty {cs : List Char}
    (hne : cs.isEmpty = false) (hall : cs.all Char.isDigit = true)
    (sawdot sawdigits : Bool) :
    scanDecMantissa sawdot sawdigits cs = (true, []) := by
  cases cs with
  | nil => simp at hne
  | cons c t =>
    rw [List.all_cons, Bool.and_eq_true] at hall
    unfold scanDecMantissa
    rw [if_neg (by simp [digit_beq_false '_' hall.1 (by decide)]),
      if_neg (by simp [digit_beq_false '.' hall.1 (by decide)]),
      if_pos hall.1]
    exact scanDecMantissa_digits t hall.2 sawdot

/-- A nonempty digit run is a valid whole-token decimal mantissa. -/
theorem decFloatOk_digits {cs : List Char} (hne : cs.isEmpty = false)
    (hall : cs.all Char.isDigit = true) : decFloatOk cs = true := by
  unfold decFloatOk
  rw [scanDecMantissa_digits_nonempty hne hall false false]
  rfl

theorem parseFloatNumberOk_digits {cs : List Char} (hne : cs.isEmpty = false)
    (hall : cs.all Char.isDigit = true) : parseFloatNumberOk cs = true := by
  unfold parseFloatNumberOk
  split
  · rename_i x t
    have hx : x.isDigit = true := by
      rw [List.all_cons, Bool.and_eq_true] at hall
      have h2 := hall.2
      rw [List.all_cons, Bool.and_eq_true] at h2
      exact h2.1
    rw [if_neg (by
      simp [digit_beq_false 'x' hx (by decide),
        digit_beq_false 'X' hx (by decide)])]
    exact decFloatOk_digits hne hall
  · exact decFloatOk_digits hne hall

theorem underscoreOKLoop_digits (hex : Bool) :
    ∀ (t : List Char), t.all Char.isDigit = true →
      underscoreOKLoop hex '0' t = true
  | [], _ => rfl
  | c :: t, h => by
      rw [List.all_cons, Bool.and_eq_true] at h
      unfold underscoreOKLoop
      rw [if_pos (by rw [h.1]; rfl)]
      exact underscoreOKLoop_digits hex t h.2

theorem underscoreOKLoop_start_digits (hex : Bool) {t : List Char}
    (hne : t.isEmpty = false) (h : t.all Char.isDigit = true) :
    underscoreOKLoop hex '^' t = true := by
  cases t with
  | nil => simp at hne
  | cons c u =>
    rw [List.all_cons, Bool.and_eq_true] at h
    unfold underscoreOKLoop
    rw [if_pos (by rw [h.1]; rfl)]
    exact underscoreOKLoop_digits hex u h.2

/-- A signed digit run places its (absent) underscores correctly. -/
theorem underscoreOK_digits {cs : List Char}
    (hne : (stripSign cs).isEmpty = false)
    (hall : (stripSign cs).all Char.isDigit = true) :
    underscoreOK cs = true := by
  unfold underscoreOK
  split
  · rename_i b t heq
    rw [heq] at hall hne
    have hb : b.isDigit = true := by
      rw [List.all_cons, Bool.and_eq_true] at hall
      have h2 := hall.2
      rw [List.all_cons, Bool.and_eq_true] at h2
      exact h2.1
    rw [if_neg (by
      simp [digit_beq_false 'b' hb (by decide),
        digit_beq_false 'B' hb (by decide),
        digit_beq_false 'o' hb (by decide),
        digit_beq_false 'O' hb (by decide),
        digit_beq_false 'x' hb (by decide),
        digit_beq_false 'X' hb (by decide)])]
    exact underscoreOKLoop_start_digits false hne hall
  · rename_i heq
    exact underscoreOKLoop_start_digits false hne hall

theorem takeWhile_all_true {p : Char → Bool} :
    ∀ (cs : List Char), (∀ c ∈ cs, p c = true) →
      cs.takeWhile p = cs ∧ cs.dropWhile p = []
  | [], _ => ⟨rfl, rfl⟩
  | c :: t, h => by
      have ih := takeWhile_all_true t fun x hx => h x (List.mem_cons_of_mem _ hx)
      rw [List.takeWhile_cons, List.dropWhile_cons]
      simp [h c (by simp), ih.1, ih.2]

/-- On a pure digit run the decimal value decomposition is the digit value
with exponent zero. -/
theorem decNumVal_digits {cs : List Char} (hall : cs.all Char.isDigit = true) :
    decNumVal cs = (digitsToNat cs, 0) := by
  have hp : ∀ c ∈ cs, isDecMantChar c = true := fun c hc => by
    unfold isDecMantChar
    rw [List.all_eq_true.mp hall c hc]
    rfl
  obtain ⟨htake, hdrop⟩ := takeWhile_all_true cs hp
  have hnodot : ∀ c ∈ cs, (fun c => !(c == '.')) c = true := fun c hc => by
    simp [digit_beq_false '.' (List.all_eq_true.mp hall c hc) (by decide)]
  obtain ⟨-, hdrop2⟩ := takeWhile_all_true cs hnodot
  unfold decNumVal
  rw [htake, hdrop, hdrop2]
  simp [List.filter_eq_self.mpr fun c hc => List.all_eq_true.mp hall c hc]

theorem fitsRange_small {N : Nat} (h : N ≤ 2 ^ 63) :
    fitsRange 10 (N, 0) = true := by
  unfold fitsRange
  rw [if_pos (le_refl (0 : Int))]
  refine decide_eq_true ?_
  show N * 10 ^ (0 : Int).toNat < overflowBound
  rw [Int.toNat_zero, pow_zero, Nat.mul_one]
  exact Nat.lt_of_le_of_lt h (by decide)

theorem parseFloatInRange_digits {cs : List Char} (hne : cs.isEmpty = false)
    (hall : cs.all Char.isDigit = true)
    (hbound : digitsToNat cs ≤ 2 ^ 63) :
    parseFloatInRange cs = true := by
  unfold parseFloatInRange
  split
  · rename_i x t
    have hx : x.isDigit = true := by
      rw [List.all_cons, Bool.and_eq_true] at hall
      have h2 := hall.2
      rw [List.all_cons, Bool.and_eq_true] at h2
      exact h2.1
    rw [if_neg (by
      simp [digit_beq_false 'x' hx (by decide),
        digit_beq_false 'X' hx (by decide)])]
    rw [decNumVal_digits hall]
    exact fitsRange_small hbound
  · rw [decNumVal_digits hall]
    exact fitsRange_small hbound

/-- A successful `parseInt64` certifies the sign-stripped digit run and
the `2^63` magnitude bound from the range check. -/
theorem parseInt64_isSome_parts {s : String}
    (h : (parseInt64 s).isSome = true) :
    decDigitsOk (stripSign s.toList) = true ∧
    digitsToNat (stripSign s.toList) ≤ 2 ^ 63 := by
  by_cases hd : decDigitsOk (stripSign s.toList) = true
  · refine ⟨hd, ?_⟩
    simp only [parseInt64, if_pos hd] at h
    have hpow : ((2 : Int) ^ 63) = 9223372036854775808 := by norm_num
    have hpowN : ((2 : Nat) ^ 63) = 9223372036854775808 := by norm_num
    rw [hpowN]
    by_cases hneg : (s.toList.headD ' ' == '-') = true
    · rw [if_pos hneg] at h
      by_cases hr : -(2 ^ 63 : Int) ≤ -(digitsToNat (stripSign s.toList) : Int) ∧
          -(digitsToNat (stripSign s.toList) : Int) ≤ 2 ^ 63 - 1
      · have h1 := hr.1
        rw [hpow] at h1
        omega
      · rw [if_neg hr] at h
        simp at h
    · rw [if_neg hneg] at h
      by_cases hr : -(2 ^ 63 : Int) ≤ (digitsToNat (stripSign s.toList) : Int) ∧
          (digitsToNat (stripSign s.toList) : Int) ≤ 2 ^ 63 - 1
      · have h2 := hr.2
        rw [hpow] at h2
        omega
      · rw [if_neg hr] at h
        simp at h
  · unfold parseInt64 at h
    rw [if_neg hd] at h
    simp at h

/-- Every string `strconv.ParseInt(s, 10, 64)` accepts is also accepted
by `strconv.ParseFloat(s, 64)`: a signed digit run of magnitude at most
`2^63` is a valid in-range float token. -/
theorem parseInt64_isSome_isNumeric {s : String}
    (h : (parseInt64 s).isSome = true) : isNumeric s = true := by
  obtain ⟨hd, hbound⟩ := parseInt64_isSome_parts h
  obtain ⟨hne, hall⟩ := decDigitsOk_unpack hd
  unfold isNumeric parseFloatOk
  rw [parseFloatNumberOk_digits hne hall, underscoreOK_digits hne hall,
    parseFloatInRange_digits hne hall hbound]
  simp

theorem not_numeric_parseInt64_none {s : String} (h : isNumeric s = false) :
    parseInt64 s = none := by
  cases hp : parseInt64 s with
  | none => rfl
  | some v =>
    have h2 := parseInt64_isSome_isNumeric
      (show (parseInt64 s).isSome = true by rw [hp]; rfl)
    rw [h2] at h
    exact Bool.noConfusion h

/-- A row the header heuristic would skip has a first field that
`strconv.ParseInt` rejects. -/
theorem headerRow_int_none {r : List String} (h : isHeaderRow r = true) :
    parseInt64 (r.getD 0 "") = none := by
  unfold isHeaderRow at h
  rw [Bool.and_eq_true] at h
  have h2 := h.2
  rw [Bool.or_eq_true, Bool.or_eq_true, beq_iff_eq, beq_iff_eq,
    Bool.not_eq_true'] at h2
  rcases h2 with (h2 | h2) | h2
  · rw [h2]; decide
  · rw [h2]; decide
  · exact not_numeric_parseInt64_none h2

/-- A row the header heuristic would skip fails `parseTradeRecord` on its
first field. -/
theorem headerRow_record_error {r : List String} (h : isHeaderRow r = true) :
    parseTradeRecord r = .error "invalid TradeId" := by
  unfold parseTradeRecord
  rw [headerRow_int_none h]

/-- Once the first record has been consumed, the loop runs with
`headerSkipped = true` and coincides with the header-skip-free variant. -/
theorem parseLoop_headerSkipped (mt : Nat) (rows : List (List String)) :
    ∀ (fpr : Option Nat) (ln : Nat) (acc : List Trade),
      parseLoop mt rows fpr true ln acc = parseLoopNoHeader mt rows fpr ln acc := by
  induction rows with
  | nil => intro fpr ln acc; rfl
  | cons r rest ih =>
    intro fpr ln acc
    unfold parseLoop parseLoopNoHeader
    by_cases hfc : fieldCountOk fpr r = true
    · simp only [if_pos hfc, Bool.not_true, Bool.false_and, Bool.false_eq_true,
        if_false]
      by_cases hbrk : 0 < mt ∧ mt ≤ acc.length
      · simp only [if_pos hbrk]
      · simp only [if_neg hbrk]
        by_cases hlen : r.length < 7
        · simp only [if_pos hlen]
          exact ih _ _ _
        · simp only [if_neg hlen]
          cases hpr : parseTradeRecord r <;> exact ih _ _ _
    · simp only [if_neg hfc]

/-- C9: with unlimited `maxTrades`, removing the header-skip branch does
not change the outcome of `parseCSVStreaming` on any input: a row the
heuristic skips would in any case fail the integer conversion of field 0
and be dropped as malformed. -/
theorem c9_header_skip_no_observable_effect (rows : List (List String)) :
    parseCSVStreaming rows 0 = parseCSVNoHeaderSkip rows 0 := by
  unfold parseCSVStreaming parseCSVNoHeaderSkip
  cases rows with
  | nil => rfl
  | cons r rest =>
    unfold parseLoop parseLoopNoHeader
    simp only [if_pos (show fieldCountOk none r = true from rfl),
      Bool.not_false, Bool.true_and,
      if_neg (show ¬(0 < 0 ∧ 0 ≤ ([] : List Trade).length) by simp)]
    by_cases hh : isHeaderRow r = true
    · simp only [if_pos hh, parseLoop_headerSkipped]
      by_cases hlen : r.length < 7
      · simp only [if_pos hlen]
      · simp only [if_neg hlen, headerRow_record_error hh]
    · simp only [if_neg hh]
      by_cases hlen : r.length < 7
      · simp only [if_pos hlen]
        exact parseLoop_headerSkipped 0 rest _ _ _
      · simp only [if_neg hlen]
        cases hpr : parseTradeRecord r <;>
          exact parseLoop_headerSkipped 0 rest _ _ _

/-- C10: two configurations that agree on the four transport fields — and
hence may differ arbitrarily in `MaxResponseSize` and `MaxTradesPerFile`
— make `DownloadTrades` behave identically on identical inputs: the body
bound is the hard-coded `500*1024*1024` and the per-file parse is always
invoked with the unlimited count 0. -/
theorem c10_unused_config_fields (cfg cfg' : ConnectorConfig)
    (h1 : cfg.timeout = cfg'.timeout)
    (h2 : cfg.maxIdleConns = cfg'.maxIdleConns)
    (h3 : cfg.maxConnsPerHost = cfg'.maxConnsPerHost)
    (h4 : cfg.idleConnTimeout = cfg'.idleConnTimeout)
    (decodeZip : List UInt8 → Except String (List ZipEntry)) (status : Nat)
    (body : List UInt8) (symbol year month day : String) :
    downloadTradesWithConfig cfg decodeZip status body symbol year month day =
      downloadTradesWithConfig cfg' decodeZip status body symbol year month day :=
  rfl

/-- C10 witness: two genuinely different configurations (differing in
`MaxResponseSize` and `MaxTradesPerFile`) produce the same outcome. -/
theorem c10_witness :
    ((⟨30, 100, 10, 90, 0, 0⟩ : ConnectorConfig) ≠ ⟨30, 100, 10, 90, 7, 9⟩) ∧
    downloadTradesWithConfig ⟨30, 100, 10, 90, 0, 0⟩
        (fun _ => .ok c7Entries) 200 [0] "BTCUSDT" "2024" "1" "2" =
      downloadTradesWithConfig ⟨30, 100, 10, 90, 7, 9⟩
        (fun _ => .ok c7Entries) 200 [0] "BTCUSDT" "2024" "1" "2" :=
  ⟨by decide,
   c10_unused_config_fields ⟨30, 100, 10, 90, 0, 0⟩ ⟨30, 100, 10, 90, 7, 9⟩
     rfl rfl rfl rfl (fun _ => .ok c7Entries) 200 [0] "BTCUSDT" "2024" "1" "2"⟩

theorem year_repr_len4 (y : Nat) (h1 : 2000 ≤ y) (h2 : y ≤ 2100) :
    (toString y).length = 4 := by
  interval_cases y <;> decide

theorem month_fmt_pad (m : Nat) (h1 : 1 ≤ m) (h2 : m ≤ 12) :
    ((if (toString m).length = 1 then "0" ++ toString m else toString m) =
      pad2 m) ∧ (pad2 m).length = 2 := by
  interval_cases m <;> decide

theorem day_fmt_pad (d : Nat) (h1 : 1 ≤ d) (h2 : d ≤ 31) :
    ((if (toString d).length = 1 then "0" ++ toString d else toString d) =
      pad2 d) ∧ (pad2 d).length = 2 := by
  interval_cases d <;> decide

theorem toString_small_len1 (m : Nat) (h1 : 1 ≤ m) (h2 : m ≤ 9) :
    (toString m).length = 1 := by
  interval_cases m <;> decide

/-- A month or day component given either bare or already zero-padded is
normalized by `formatDate` to its canonical two-digit form. -/
theorem component_fmt_pad (m : Nat) (cs : String) (h1 : 1 ≤ m) (h2 : m ≤ 31)
    (hcs : cs = toString m ∨ (m < 10 ∧ cs = "0" ++ toString m)) :
    (if cs.length = 1 then "0" ++ cs else cs) = pad2 m := by
  rcases hcs with hcs | ⟨hlt, hcs⟩
  · rw [hcs]
    exact (day_fmt_pad m h1 h2).1
  · rw [hcs, if_neg (by
      rw [String.length_append, toString_small_len1 m h1 (by omega)]
      decide)]
    unfold pad2
    rw [if_pos hlt]

/-- C6: for every valid input — symbol of the validated shape, year in
[2000,2100], month and day in range forming a real calendar date, each
given as its decimal string (month and day optionally already
zero-padded to two digits) — the result's date field is the zero-padded
`YYYY-MM-DD`, and the request URL is built from exactly the same padded
components as the result's date. -/
theorem c6_normalized_date_zero_padded (symbol : String) (y m d : Nat)
    (ys ms ds : String)
    (hsym : symbolValid symbol = true)
    (hy1 : 2000 ≤ y) (hy2 : y ≤ 2100)
    (hm1 : 1 ≤ m) (hm2 : m ≤ 12)
    (hd1 : 1 ≤ d) (hd2 : d ≤ 31)
    (hreal : d ≤ daysInMonth y m)
    (hys : ys = toString y)
    (hms : ms = toString m ∨ (m < 10 ∧ ms = "0" ++ toString m))
    (hds : ds = toString d ∨ (d < 10 ∧ ds = "0" ++ toString d)) :
    resultDate ys ms ds = toString y ++ "-" ++ pad2 m ++ "-" ++ pad2 d ∧
    (toString y).length = 4 ∧ (pad2 m).length = 2 ∧ (pad2 d).length = 2 ∧
    requestURL symbol ys ms ds =
      tradesURL symbol (toString y) (pad2 m) (pad2 d) := by
  have hfm := component_fmt_pad m ms hm1 (by omega) hms
  have hfd := component_fmt_pad d ds hd1 hd2 hds
  have hfmt : formatDate ys ms ds = (toString y, pad2 m, pad2 d) := by
    unfold formatDate
    rw [hys, hfm, hfd]
  refine ⟨?_, year_repr_len4 y hy1 hy2, (month_fmt_pad m hm1 hm2).2,
    (day_fmt_pad d hd1 hd2).2, ?_⟩
  · unfold resultDate
    rw [hfmt]
  · unfold requestURL
    rw [hfmt]

/-- C6 witness: year 2024, month 3, day 7 given bare produce the padded
date 2024-03-07 in both the result and the URL. -/
theorem c6_witness :
    resultDate "2024" "3" "7" = toString 2024 ++ "-" ++ pad2 3 ++ "-" ++ pad2 7 ∧
    (toString 2024).length = 4 ∧ (pad2 3).length = 2 ∧ (pad2 7).length = 2 ∧
    requestURL "BTCUSDT" "2024" "3" "7" =
      tradesURL "BTCUSDT" (toString 2024) (pad2 3) (pad2 7) :=
  c6_normalized_date_zero_padded "BTCUSDT" 2024 3 7 "2024" "3" "7"
    (by decide) (by decide) (by decide) (by decide) (by decide) (by decide)
    (by decide) (by decide) (by decide) (Or.inl (by decide)) (Or.inl (by decide))

end BinanceVision
